import Mathlib

/-
Shallow embedding of src/lib.rs (tangtang95/minhook): a Rust wrapper around
the MinHook engine.  The external engine (the `extern "system"` block) is
modelled as an oracle `Engine` supplying the status each FFI entry point
would return; each wrapper operation additionally emits the trace of engine
calls it issues, as a `List EngineCall`.  Addresses (`*mut c_void`) are
modelled as `Nat` (0 = null).  A Rust panic (`expect`) is modelled by the
`PanicOr.panicked` result; the `INIT_CELL : OnceCell<()>` by the boolean
`ProcState.initCellSet` threaded through sequential executions.
-/

/-- MH_STATUS from src/lib.rs lines 13-44. -/
inductive MH_STATUS where
  | MH_UNKNOWN
  | MH_OK
  | MH_ERROR_ALREADY_INITIALIZED
  | MH_ERROR_NOT_INITIALIZED
  | MH_ERROR_ALREADY_CREATED
  | MH_ERROR_NOT_CREATED
  | MH_ERROR_ENABLED
  | MH_ERROR_DISABLED
  | MH_ERROR_NOT_EXECUTABLE
  | MH_ERROR_UNSUPPORTED_FUNCTION
  | MH_ERROR_MEMORY_ALLOC
  | MH_ERROR_MEMORY_PROTECT
  | MH_ERROR_MODULE_NOT_FOUND
  | MH_ERROR_FUNCTION_NOT_FOUND
  deriving Repr, DecidableEq

/-- MH_STATUS::ok (src/lib.rs lines 140-146): Ok(()) iff the status is MH_OK,
otherwise Err(self). -/
def MH_STATUS.ok (self : MH_STATUS) : Except MH_STATUS Unit :=
  if self = MH_STATUS.MH_OK then Except.ok () else Except.error self

/-- One call issued to the external MinHook engine, with its argument
addresses.  Status codes returned by the engine are not part of a call. -/
inductive EngineCall where
  | initializeCall
  | uninitializeCall
  | createHook (pTarget pDetour : Nat)
  | queueEnable (pTarget : Nat)
  | queueDisable (pTarget : Nat)
  | applyQueued
  deriving Repr, DecidableEq

/-- Oracle for the external engine: the status each entry point returns.
`MH_CreateHook` also yields the value left in the `ppOriginal` out
parameter (the trampoline address). -/
structure Engine where
  MH_Initialize : MH_STATUS
  MH_Uninitialize : MH_STATUS
  MH_CreateHook : Nat → Nat → MH_STATUS × Nat
  MH_QueueEnableHook : Nat → MH_STATUS
  MH_QueueDisableHook : Nat → MH_STATUS
  MH_ApplyQueued : MH_STATUS

/-- MhHook (src/lib.rs lines 151-155): target address, detour address and
trampoline address.  The field accessor `MhHook.trampoline` is the
embedding of `pub fn trampoline(&self)` (lines 197-199). -/
structure MhHook where
  addr : Nat
  hook_impl : Nat
  trampoline : Nat
  deriving Repr, DecidableEq

/-- State of the process-wide `INIT_CELL : OnceCell<()>` (line 157):
whether the cell has been set. -/
structure ProcState where
  initCellSet : Bool
  deriving Repr, DecidableEq

/-- Result of an operation that may panic instead of returning. -/
inductive PanicOr (α : Type) where
  | panicked : PanicOr α
  | ok : α → PanicOr α
  deriving Repr

/-- The `INIT_CELL.get_or_init(|| ...)` block of MhHook::new (lines 177-182):
if the cell is unset, call MH_Initialize and `expect` success (panicking on
any non-OK status, with the cell never set); afterwards the cell is set. -/
def INIT_CELL_get_or_init (eng : Engine) (st : ProcState) :
    PanicOr ProcState × List EngineCall :=
  if st.initCellSet then (PanicOr.ok st, [])
  else
    let status := eng.MH_Initialize
    match status.ok with
    | Except.ok _ => (PanicOr.ok ⟨true⟩, [EngineCall.initializeCall])
    | Except.error _ => (PanicOr.panicked, [EngineCall.initializeCall])

/-- MhHook::new (src/lib.rs lines 176-195): run the lazy-init cell, then
call MH_CreateHook(addr, hook_impl, &mut trampoline); `status.ok()?`
propagates a non-OK status as Err, otherwise the record is built from the
three addresses. -/
def MhHook.new (eng : Engine) (st : ProcState) (addr hook_impl : Nat) :
    PanicOr (Except MH_STATUS MhHook × ProcState) × List EngineCall :=
  match INIT_CELL_get_or_init eng st with
  | (PanicOr.panicked, tr) => (PanicOr.panicked, tr)
  | (PanicOr.ok st1, tr) =>
    let created := eng.MH_CreateHook addr hook_impl
    let status := created.1
    let trampoline := created.2
    let tr := tr ++ [EngineCall.createHook addr hook_impl]
    match status.ok with
    | Except.error e => (PanicOr.ok (Except.error e, st1), tr)
    | Except.ok _ => (PanicOr.ok (Except.ok ⟨addr, hook_impl, trampoline⟩, st1), tr)

/-- MhHook::queue_enable (src/lib.rs lines 201-204): calls
MH_QueueEnableHook(self.hook_impl) and discards the status. -/
def MhHook.queue_enable (eng : Engine) (self : MhHook) : Unit × List EngineCall :=
  let _status := eng.MH_QueueEnableHook self.hook_impl
  ((), [EngineCall.queueEnable self.hook_impl])

/-- MhHook::queue_disable (src/lib.rs lines 206-209): calls
MH_QueueDisableHook(self.hook_impl) and discards the status. -/
def MhHook.queue_disable (eng : Engine) (self : MhHook) : Unit × List EngineCall :=
  let _status := eng.MH_QueueDisableHook self.hook_impl
  ((), [EngineCall.queueDisable self.hook_impl])

/-- MhHooks (src/lib.rs line 213): the tuple struct `MhHooks(Vec<MhHook>)`. -/
structure MhHooks where
  hooks : List MhHook
  deriving Repr, DecidableEq

/-- MhHooks::new (src/lib.rs lines 218-220): collects the iterator and wraps
the vector in Ok unconditionally. -/
def MhHooks.new (hooks : List MhHook) : Except MH_STATUS MhHooks :=
  Except.ok ⟨hooks⟩

/-- MhHooks::apply_hooks (src/lib.rs lines 232-239): for each hook, call
MH_QueueEnableHook(hook.addr) discarding the status; then one call to
MH_ApplyQueued, its status also discarded. -/
def MhHooks.apply_hooks (eng : Engine) (hooks : List MhHook) : List EngineCall :=
  (hooks.map fun hook =>
    let _status := eng.MH_QueueEnableHook hook.addr
    EngineCall.queueEnable hook.addr)
  ++
  (let _status := eng.MH_ApplyQueued
   [EngineCall.applyQueued])

/-- MhHooks::unapply_hooks (src/lib.rs lines 241-248): for each hook, call
MH_QueueDisableHook(hook.addr) discarding the status; then one call to
MH_ApplyQueued, its status also discarded. -/
def MhHooks.unapply_hooks (eng : Engine) (hooks : List MhHook) : List EngineCall :=
  (hooks.map fun hook =>
    let _status := eng.MH_QueueDisableHook hook.addr
    EngineCall.queueDisable hook.addr)
  ++
  (let _status := eng.MH_ApplyQueued
   [EngineCall.applyQueued])

/-- MhHooks::apply (src/lib.rs lines 222-224): apply_hooks on the stored
vector; returns (). -/
def MhHooks.apply (eng : Engine) (self : MhHooks) : Unit × List EngineCall :=
  ((), MhHooks.apply_hooks eng self.hooks)

/-- MhHooks::unapply (src/lib.rs lines 226-230): unapply_hooks on the stored
vector, then MH_Uninitialize with its status discarded; returns (). -/
def MhHooks.unapply (eng : Engine) (self : MhHooks) : Unit × List EngineCall :=
  let tr := MhHooks.unapply_hooks eng self.hooks
  let _status := eng.MH_Uninitialize
  ((), tr ++ [EngineCall.uninitializeCall])

/-- Drop for MhHooks (src/lib.rs lines 251-255): the body is empty (the
`self.unapply()` line is commented out), so destruction issues no engine
call. -/
def MhHooks.drop (_eng : Engine) (_self : MhHooks) : List EngineCall := []

/-- The operations callable on an existing MhHooks value. -/
inductive HookSetOp where
  | applyOp
  | unapplyOp
  | dropOp
  deriving Repr, DecidableEq

/-- Run one MhHooks operation.  Each Rust method takes `&self` (and `drop`
writes nothing), so the set value is returned unchanged alongside the
trace the method emits. -/
def MhHooks.runOp (eng : Engine) (s : MhHooks) : HookSetOp → MhHooks × List EngineCall
  | HookSetOp.applyOp => (s, (MhHooks.apply eng s).2)
  | HookSetOp.unapplyOp => (s, (MhHooks.unapply eng s).2)
  | HookSetOp.dropOp => (s, MhHooks.drop eng s)

/-- Run a sequence of MhHooks operations, accumulating the engine trace. -/
def MhHooks.runOps (eng : Engine) (s : MhHooks) : List HookSetOp → MhHooks × List EngineCall
  | [] => (s, [])
  | op :: rest =>
    let p := MhHooks.runOp eng s op
    let q := MhHooks.runOps eng p.1 rest
    (q.1, p.2 ++ q.2)

/-- Sequential execution of a list of MhHook::new calls (argument pairs),
threading the INIT_CELL state.  A panic aborts the process: no further
calls run. -/
def runNews (eng : Engine) (st : ProcState) :
    List (Nat × Nat) → ProcState × List EngineCall
  | [] => (st, [])
  | (a, h) :: rest =>
    match MhHook.new eng st a h with
    | (PanicOr.panicked, tr) => (st, tr)
    | (PanicOr.ok p, tr) =>
      let q := runNews eng p.2 rest
      (q.1, tr ++ q.2)

/-- Number of MH_Initialize calls in a trace. -/
def countInit (tr : List EngineCall) : Nat :=
  tr.count EngineCall.initializeCall

/-- A concrete engine on which every operation succeeds; MH_CreateHook
writes trampoline address 1000 + target + detour. -/
def engAllOk : Engine :=
  ⟨MH_STATUS.MH_OK, MH_STATUS.MH_OK,
   fun a b => (MH_STATUS.MH_OK, 1000 + a + b),
   fun _ => MH_STATUS.MH_OK, fun _ => MH_STATUS.MH_OK, MH_STATUS.MH_OK⟩

/-- A concrete engine whose MH_Initialize fails with MH_ERROR_MEMORY_ALLOC. -/
def engBadInit : Engine :=
  ⟨MH_STATUS.MH_ERROR_MEMORY_ALLOC, MH_STATUS.MH_OK,
   fun a b => (MH_STATUS.MH_OK, 1000 + a + b),
   fun _ => MH_STATUS.MH_OK, fun _ => MH_STATUS.MH_OK, MH_STATUS.MH_OK⟩

/-- A concrete engine whose MH_CreateHook fails with MH_ERROR_ALREADY_CREATED. -/
def engBadCreate : Engine :=
  ⟨MH_STATUS.MH_OK, MH_STATUS.MH_OK,
   fun _ _ => (MH_STATUS.MH_ERROR_ALREADY_CREATED, 0),
   fun _ => MH_STATUS.MH_OK, fun _ => MH_STATUS.MH_OK, MH_STATUS.MH_OK⟩

lemma countInit_append (l l' : List EngineCall) :
    countInit (l ++ l') = countInit l + countInit l' := by
  simp [countInit, List.count_append]

lemma countInit_nil : countInit [] = 0 := rfl

lemma countInit_createHook (a b : Nat) (l : List EngineCall) :
    countInit (EngineCall.createHook a b :: l) = countInit l := by
  simp [countInit, List.count_cons]

lemma countInit_initializeCall (l : List EngineCall) :
    countInit (EngineCall.initializeCall :: l) = countInit l + 1 := by
  simp [countInit, List.count_cons]

lemma get_or_init_set (eng : Engine) (st : ProcState) (h : st.initCellSet = true) :
    INIT_CELL_get_or_init eng st = (PanicOr.ok st, []) := by
  simp [INIT_CELL_get_or_init, h]

lemma get_or_init_unset_ok (eng : Engine)
    (hok : eng.MH_Initialize = MH_STATUS.MH_OK) :
    INIT_CELL_get_or_init eng ⟨false⟩ = (PanicOr.ok ⟨true⟩, [EngineCall.initializeCall]) := by
  simp [INIT_CELL_get_or_init, MH_STATUS.ok, hok]

lemma get_or_init_unset_fail (eng : Engine)
    (hbad : eng.MH_Initialize ≠ MH_STATUS.MH_OK) :
    INIT_CELL_get_or_init eng ⟨false⟩ = (PanicOr.panicked, [EngineCall.initializeCall]) := by
  simp [INIT_CELL_get_or_init, MH_STATUS.ok, hbad]

lemma new_of_init_panic (eng : Engine) (st : ProcState) (a b : Nat)
    (tr0 : List EngineCall)
    (hin : INIT_CELL_get_or_init eng st = (PanicOr.panicked, tr0)) :
    MhHook.new eng st a b = (PanicOr.panicked, tr0) := by
  unfold MhHook.new
  rw [hin]

lemma new_create_ok (eng : Engine) (st st1 : ProcState) (a b : Nat)
    (tr0 : List EngineCall)
    (hin : INIT_CELL_get_or_init eng st = (PanicOr.ok st1, tr0))
    (hc : (eng.MH_CreateHook a b).1 = MH_STATUS.MH_OK) :
    MhHook.new eng st a b
      = (PanicOr.ok (Except.ok ⟨a, b, (eng.MH_CreateHook a b).2⟩, st1),
         tr0 ++ [EngineCall.createHook a b]) := by
  unfold MhHook.new
  rw [hin]
  simp [MH_STATUS.ok, hc]

lemma new_create_err (eng : Engine) (st st1 : ProcState) (a b : Nat)
    (tr0 : List EngineCall)
    (hin : INIT_CELL_get_or_init eng st = (PanicOr.ok st1, tr0))
    (hc : (eng.MH_CreateHook a b).1 ≠ MH_STATUS.MH_OK) :
    MhHook.new eng st a b
      = (PanicOr.ok (Except.error (eng.MH_CreateHook a b).1, st1),
         tr0 ++ [EngineCall.createHook a b]) := by
  unfold MhHook.new
  rw [hin]
  simp [MH_STATUS.ok, hc]

lemma new_inited_shape (eng : Engine) (st : ProcState) (a b : Nat)
    (h : st.initCellSet = true) :
    ∃ r : Except MH_STATUS MhHook,
      MhHook.new eng st a b = (PanicOr.ok (r, st), [EngineCall.createHook a b]) := by
  by_cases hc : (eng.MH_CreateHook a b).1 = MH_STATUS.MH_OK
  · exact ⟨_, new_create_ok eng st st a b [] (get_or_init_set eng st h) hc⟩
  · exact ⟨_, new_create_err eng st st a b [] (get_or_init_set eng st h) hc⟩

lemma runNews_inited (eng : Engine) (news : List (Nat × Nat)) :
    ∀ st : ProcState, st.initCellSet = true →
      countInit (runNews eng st news).2 = 0 ∧ (runNews eng st news).1 = st := by
  induction news with
  | nil => intro st h; exact ⟨rfl, rfl⟩
  | cons p rest ih =>
    intro st h
    obtain ⟨a, b⟩ := p
    obtain ⟨r, hr⟩ := new_inited_shape eng st a b h
    obtain ⟨ih1, ih2⟩ := ih st h
    constructor
    · simp [runNews, hr, countInit_append, countInit_createHook, countInit_nil, ih1]
    · simp [runNews, hr, ih2]

lemma runNews_first_ok (eng : Engine) (a b : Nat) (rest : List (Nat × Nat))
    (hok : eng.MH_Initialize = MH_STATUS.MH_OK) :
    (runNews eng ⟨false⟩ ((a, b) :: rest)).2
      = EngineCall.initializeCall :: EngineCall.createHook a b
          :: (runNews eng ⟨true⟩ rest).2 := by
  by_cases hc : (eng.MH_CreateHook a b).1 = MH_STATUS.MH_OK
  · have hn := new_create_ok eng ⟨false⟩ ⟨true⟩ a b [EngineCall.initializeCall]
      (get_or_init_unset_ok eng hok) hc
    simp [runNews, hn]
  · have hn := new_create_err eng ⟨false⟩ ⟨true⟩ a b [EngineCall.initializeCall]
      (get_or_init_unset_ok eng hok) hc
    simp [runNews, hn]

lemma runOp_fst (eng : Engine) (s : MhHooks) (op : HookSetOp) :
    (MhHooks.runOp eng s op).1 = s := by
  cases op <;> rfl

lemma runOps_fst (eng : Engine) (ops : List HookSetOp) :
    ∀ s : MhHooks, (MhHooks.runOps eng s ops).1 = s := by
  induction ops with
  | nil => intro s; rfl
  | cons op rest ih =>
    intro s
    simp [MhHooks.runOps, runOp_fst, ih]


/-- C1: apply() issues one queue-enable per HookRecord in insertion order,
then exactly one commit-queued-changes request after all members are
queued; statuses are discarded (the outcome does not depend on the engine's
statuses) and apply() returns the unit value. -/
theorem apply_queues_in_order_then_single_commit (eng : Engine) (s : MhHooks) :
    MhHooks.apply eng s
      = ((), s.hooks.map (fun h => EngineCall.queueEnable h.addr)
          ++ [EngineCall.applyQueued])
    ∧ (MhHooks.apply eng s).2.count EngineCall.applyQueued = 1
    ∧ ∀ eng2 : Engine, MhHooks.apply eng s = MhHooks.apply eng2 s := by
  refine ⟨rfl, ?_, fun eng2 => rfl⟩
  simp [MhHooks.apply, MhHooks.apply_hooks, List.count_append,
    List.count_eq_zero, List.mem_map]

/-- C2: unapply() issues one queue-disable per HookRecord in insertion
order, then exactly one commit-queued-changes request, then the engine's
global uninitialize; statuses are discarded and unapply() returns the unit
value. -/
theorem unapply_queues_commits_then_uninitializes (eng : Engine) (s : MhHooks) :
    MhHooks.unapply eng s
      = ((), s.hooks.map (fun h => EngineCall.queueDisable h.addr)
          ++ [EngineCall.applyQueued, EngineCall.uninitializeCall])
    ∧ (MhHooks.unapply eng s).2.count EngineCall.applyQueued = 1
    ∧ (MhHooks.unapply eng s).2.count EngineCall.uninitializeCall = 1
    ∧ ∀ eng2 : Engine, MhHooks.unapply eng s = MhHooks.unapply eng2 s := by
  refine ⟨?_, ?_, ?_, fun eng2 => rfl⟩
  · simp [MhHooks.unapply, MhHooks.unapply_hooks]
  · simp [MhHooks.unapply, MhHooks.unapply_hooks, List.count_append,
      List.count_eq_zero, List.mem_map]
  · simp [MhHooks.unapply, MhHooks.unapply_hooks, List.count_append,
      List.count_eq_zero, List.mem_map]

/-- C3: across a sequence of MhHook::new calls starting from an unset
INIT_CELL, MH_Initialize is invoked at most once; when it succeeds it
happens during the first creation call, immediately before that call's
MH_CreateHook request, and no later call re-invokes it. -/
theorem mh_initialize_at_most_once (eng : Engine) (news : List (Nat × Nat)) :
    countInit (runNews eng ⟨false⟩ news).2 ≤ 1
    ∧ ∀ a b rest, news = (a, b) :: rest →
        eng.MH_Initialize = MH_STATUS.MH_OK →
          (runNews eng ⟨false⟩ news).2
            = EngineCall.initializeCall :: EngineCall.createHook a b
                :: (runNews eng ⟨true⟩ rest).2
          ∧ countInit (runNews eng ⟨true⟩ rest).2 = 0 := by
  constructor
  · cases news with
    | nil => simp [runNews, countInit_nil]
    | cons p rest =>
      obtain ⟨a, b⟩ := p
      by_cases hok : eng.MH_Initialize = MH_STATUS.MH_OK
      · rw [runNews_first_ok eng a b rest hok, countInit_initializeCall,
          countInit_createHook, (runNews_inited eng rest ⟨true⟩ rfl).1]
      · have hn := new_of_init_panic eng ⟨false⟩ a b [EngineCall.initializeCall]
          (get_or_init_unset_fail eng hok)
        simp [runNews, hn, countInit_initializeCall, countInit_nil]
  · intro a b rest hnews hok
    subst hnews
    exact ⟨runNews_first_ok eng a b rest hok, (runNews_inited eng rest ⟨true⟩ rfl).1⟩

/-- C3 witness: concrete run of two creation calls on an all-OK engine. -/
theorem mh_initialize_at_most_once_witness :
    countInit (runNews engAllOk ⟨false⟩ [(1, 2), (3, 4)]).2 ≤ 1
    ∧ (runNews engAllOk ⟨false⟩ [(1, 2), (3, 4)]).2
        = EngineCall.initializeCall :: EngineCall.createHook 1 2
            :: (runNews engAllOk ⟨true⟩ [(3, 4)]).2
    ∧ countInit (runNews engAllOk ⟨true⟩ [(3, 4)]).2 = 0 :=
  ⟨(mh_initialize_at_most_once engAllOk [(1, 2), (3, 4)]).1,
   (mh_initialize_at_most_once engAllOk [(1, 2), (3, 4)]).2 1 2 [(3, 4)] rfl rfl⟩

/-- C4: if MH_Initialize returns a non-OK status on the first creation call,
MhHook::new panics (after only the initialize call) and in particular never
returns, neither as Ok nor as a recoverable Err. -/
theorem init_failure_is_fatal_not_err (eng : Engine) (st : ProcState) (a b : Nat)
    (hst : st.initCellSet = false) (hbad : eng.MH_Initialize ≠ MH_STATUS.MH_OK) :
    MhHook.new eng st a b = (PanicOr.panicked, [EngineCall.initializeCall])
    ∧ ∀ out : Except MH_STATUS MhHook × ProcState,
        (MhHook.new eng st a b).1 ≠ PanicOr.ok out := by
  obtain ⟨flag⟩ := st
  simp only [ProcState.mk.injEq] at hst
  subst hst
  have hn := new_of_init_panic eng ⟨false⟩ a b [EngineCall.initializeCall]
    (get_or_init_unset_fail eng hbad)
  refine ⟨hn, fun out hc => ?_⟩
  rw [hn] at hc
  exact PanicOr.noConfusion hc

/-- C4 witness: the failing-initialize engine at concrete addresses. -/
theorem init_failure_is_fatal_not_err_witness :
    MhHook.new engBadInit ⟨false⟩ 1 2 = (PanicOr.panicked, [EngineCall.initializeCall]) :=
  (init_failure_is_fatal_not_err engBadInit ⟨false⟩ 1 2 rfl (by decide)).1


/-- C5: given that initialization does not panic (the cell is already set,
or MH_Initialize reports OK), MhHook::new returns Ok exactly when
MH_CreateHook reports MH_OK; the Ok record holds the target, the detour and
the engine-produced trampoline, which is what the trampoline accessor then
returns; on a non-OK status the very same status comes back as Err and no
record is built. -/
theorem new_ok_iff_create_ok (eng : Engine) (st : ProcState) (a b : Nat)
    (hpre : st.initCellSet = true ∨ eng.MH_Initialize = MH_STATUS.MH_OK) :
    ((eng.MH_CreateHook a b).1 = MH_STATUS.MH_OK →
      ∃ st1, (MhHook.new eng st a b).1
        = PanicOr.ok (Except.ok (MhHook.mk a b (eng.MH_CreateHook a b).2), st1))
    ∧ ((eng.MH_CreateHook a b).1 ≠ MH_STATUS.MH_OK →
      ∃ st1, (MhHook.new eng st a b).1
        = PanicOr.ok (Except.error (eng.MH_CreateHook a b).1, st1))
    ∧ (MhHook.mk a b (eng.MH_CreateHook a b).2).trampoline
        = (eng.MH_CreateHook a b).2 := by
  have hin : ∃ st1 tr0, INIT_CELL_get_or_init eng st = (PanicOr.ok st1, tr0) := by
    obtain ⟨flag⟩ := st
    cases flag with
    | true => exact ⟨⟨true⟩, [], get_or_init_set eng ⟨true⟩ rfl⟩
    | false =>
      rcases hpre with hset | hok
      · exact absurd hset (by simp)
      · exact ⟨⟨true⟩, [EngineCall.initializeCall], get_or_init_unset_ok eng hok⟩
  obtain ⟨st1, tr0, hin⟩ := hin
  refine ⟨fun hc => ⟨st1, ?_⟩, fun hc => ⟨st1, ?_⟩, rfl⟩
  · rw [new_create_ok eng st st1 a b tr0 hin hc]
  · rw [new_create_err eng st st1 a b tr0 hin hc]

/-- C5 witness: on the all-OK engine the record comes back with the
engine-produced trampoline 1003; on the failing-create engine the exact
status MH_ERROR_ALREADY_CREATED comes back as Err. -/
theorem new_ok_iff_create_ok_witness :
    (∃ st1, (MhHook.new engAllOk ⟨true⟩ 1 2).1
      = PanicOr.ok (Except.ok (MhHook.mk 1 2 (engAllOk.MH_CreateHook 1 2).2), st1))
    ∧ ∃ st1, (MhHook.new engBadCreate ⟨true⟩ 1 2).1
      = PanicOr.ok (Except.error (engBadCreate.MH_CreateHook 1 2).1, st1) :=
  ⟨(new_ok_iff_create_ok engAllOk ⟨true⟩ 1 2 (Or.inl rfl)).1 rfl,
   (new_ok_iff_create_ok engBadCreate ⟨true⟩ 1 2 (Or.inl rfl)).2.1 (by decide)⟩

/-- C6: the per-record queue methods pass the DETOUR address
(self.hook_impl), not the target address, to the engine, while the batch
helpers pass the target (hook.addr): at the record with target 1, detour 2,
queue_enable/queue_disable issue their request for address 2 even though
the record's target is 1, diverging from apply_hooks. -/
theorem queue_methods_pass_detour_not_target :
    (MhHook.queue_enable engAllOk (MhHook.mk 1 2 3)).2 = [EngineCall.queueEnable 2]
    ∧ (MhHook.queue_disable engAllOk (MhHook.mk 1 2 3)).2 = [EngineCall.queueDisable 2]
    ∧ (MhHook.mk 1 2 3).addr = 1
    ∧ (MhHook.mk 1 2 3).hook_impl = 2
    ∧ MhHooks.apply_hooks engAllOk [MhHook.mk 1 2 3]
        = [EngineCall.queueEnable 1, EngineCall.applyQueued]
    ∧ MhHooks.unapply_hooks engAllOk [MhHook.mk 1 2 3]
        = [EngineCall.queueDisable 1, EngineCall.applyQueued]
    ∧ (MhHook.queue_enable engAllOk (MhHook.mk 1 2 3)).2
        ≠ [EngineCall.queueEnable (MhHook.mk 1 2 3).addr] := by
  exact ⟨rfl, rfl, rfl, rfl, rfl, rfl, by decide⟩

/-- C7: the membership fixed by MhHooks::new is never changed afterwards:
any sequence of apply/unapply/drop operations leaves the set identical, and
apply afterwards still enumerates exactly the records supplied at
construction, in order. -/
theorem hookset_membership_fixed (eng : Engine) (hooks : List MhHook)
    (s : MhHooks) (hnew : MhHooks.new hooks = Except.ok s)
    (ops : List HookSetOp) :
    s.hooks = hooks
    ∧ (MhHooks.runOps eng s ops).1 = s
    ∧ (MhHooks.apply eng (MhHooks.runOps eng s ops).1).2
        = hooks.map (fun hk => EngineCall.queueEnable hk.addr)
            ++ [EngineCall.applyQueued] := by
  have hs : MhHooks.mk hooks = s := by
    simpa [MhHooks.new] using hnew
  subst hs
  refine ⟨rfl, runOps_fst eng ops _, ?_⟩
  rw [runOps_fst eng ops]
  rfl

/-- C7 witness: a concrete one-record set run through apply then drop. -/
theorem hookset_membership_fixed_witness :
    (MhHooks.mk [MhHook.mk 1 2 3]).hooks = [MhHook.mk 1 2 3]
    ∧ (MhHooks.runOps engAllOk (MhHooks.mk [MhHook.mk 1 2 3])
        [HookSetOp.applyOp, HookSetOp.dropOp]).1 = MhHooks.mk [MhHook.mk 1 2 3]
    ∧ (MhHooks.apply engAllOk (MhHooks.runOps engAllOk (MhHooks.mk [MhHook.mk 1 2 3])
        [HookSetOp.applyOp, HookSetOp.dropOp]).1).2
        = [MhHook.mk 1 2 3].map (fun hk => EngineCall.queueEnable hk.addr)
            ++ [EngineCall.applyQueued] :=
  hookset_membership_fixed engAllOk [MhHook.mk 1 2 3] (MhHooks.mk [MhHook.mk 1 2 3])
    rfl [HookSetOp.applyOp, HookSetOp.dropOp]

/-- C8: dropping a MhHooks issues no engine call at all: the emitted trace
is empty, for every engine and every set. -/
theorem drop_issues_no_engine_call (eng : Engine) (s : MhHooks) :
    MhHooks.drop eng s = [] := rfl

/-- C10: MhHooks::new is infallible: for every hook list, the empty one
included, it returns Ok of exactly the supplied hooks and never Err. -/
theorem mhhooks_new_infallible (hooks : List MhHook) :
    MhHooks.new hooks = Except.ok (MhHooks.mk hooks)
    ∧ ∀ e : MH_STATUS, MhHooks.new hooks ≠ Except.error e :=
  ⟨rfl, fun e hc => by simp [MhHooks.new] at hc⟩
